import Mathlib

/-!
Verification of the worktree-cli slot/port allocation engine and the
Docker-Compose definition generator.

The definitions below are a shallow embedding of the TypeScript sources:

* `src/ports.ts` — slot registry (`assignSlot`, `releaseSlot`, `getSlot`)
  and the pure port arithmetic `calculateHostPort`;
* `src/compose.ts` (shipped as `dist/compose.js`) — `generateCompose`,
  including the environment-variable reference resolver implementing
  the global regex replace over tokens of shape service.port.host
  wrapped in braces;
* `src/operations.ts` (shipped as `dist/operations.js`) — the
  slot-registry behaviour of `createWorktree` and the counting loop of
  `cleanupAll`, with the external collaborators (filesystem, git,
  docker) abstracted into explicit boolean parameters.

The persisted slots file is modelled by the association list returned
alongside each result: the JS code does whole-file read-modify-write, so
the map passed in plays the role of the file content before the call and
the map returned is the file content after it.
-/

namespace WorktreeCli

/-- The slots file content: a JSON object mapping worktree name to slot
number (`interface SlotMap` in `src/ports.ts`).  JS object keys are
unique; lookups find the (unique) matching key, modelled by first-match
lookup in an association list. -/
abbrev SlotMap := List (String × Nat)

/-- Values of the map: `Object.values(slots)` in `assignSlot`. -/
def slotValues (slots : SlotMap) : List Nat := slots.map (fun p => p.2)

/-- The candidate slot numbers `i, i+1, ..., i+n-1` visited by the
`for (let i = 1; i <= maxWorktrees; i++)` loop (with `i = 1`, `n = max`). -/
def rangeFrom : Nat → Nat → List Nat
  | _, 0 => []
  | i, n + 1 => i :: rangeFrom (i + 1) n

/-- The loop body of `assignSlot`: return the first candidate slot not in
`usedSlots`. -/
def firstFree (used : List Nat) : List Nat → Option Nat
  | [] => none
  | i :: rest => if used.contains i then firstFree used rest else some i

/-- Message of the error thrown by `assignSlot` when every slot is taken. -/
def slotsExhaustedMsg (max : Nat) : String :=
  "No available slots (max: " ++ toString max ++ "). Remove a worktree first."

/-- Embedding of `assignSlot(projectRoot, worktreeDir, worktreeName, maxWorktrees)` from
`src/ports.ts`.  The first component is the returned slot (or the thrown
error), the second the slots-file content after the call (`saveSlots` is
only reached on a fresh assignment). -/
def assignSlot (slots : SlotMap) (name : String) (max : Nat) :
    Except String Nat × SlotMap :=
  match slots.lookup name with
  | some s => (Except.ok s, slots)
  | none =>
    match firstFree (slotValues slots) (rangeFrom 1 max) with
    | some i => (Except.ok i, slots ++ [(name, i)])
    | none => (Except.error (slotsExhaustedMsg max), slots)

/-- Embedding of `releaseSlot` from `src/ports.ts`: `delete slots[worktreeName]` then save. -/
def releaseSlot (slots : SlotMap) (name : String) : SlotMap :=
  slots.filter (fun p => !(p.1 == name))

/-- Embedding of `getSlot` from `src/ports.ts` (`slots[worktreeName] ?? null`). -/
def getSlot (slots : SlotMap) (name : String) : Option Nat :=
  slots.lookup name

/-- Embedding of `calculateHostPort(basePort, slot, offset)` from `src/ports.ts`:
`basePort + (slot * offset)`. -/
def calculateHostPort (basePort slot offset : Int) : Int :=
  basePort + slot * offset

/-! Data model of `worktree.toml` (`src/config.ts`).  TypeScript `Record`
fields become association lists in declaration order; optional fields
become `Option`.  The `kong_local` and `hooks` sections are not consulted
by any embedded function (hook failures are caught and change nothing
observable), so they are omitted from the model. -/

/-- The `healthcheck` block of a `[[services]]` entry. -/
structure HealthcheckConfig where
  test : Option String := none
  path : Option String := none
  interval : Option String := none
  retries : Option Int := none
  start_period : Option String := none
deriving DecidableEq

/-- One `[[services]]` entry (`interface ServiceConfig`). -/
structure ServiceConfig where
  name : String
  image : Option String := none
  path : Option String := none
  dockerfile : Option String := none
  command : Option String := none
  ports : List (String × Int) := []
  env : Option (List (String × String)) := none
  healthcheck : Option HealthcheckConfig := none
  depends_on : Option (List (String × String)) := none
  volumes : Option (List (String × String)) := none
  named_volumes : Option (List (String × String)) := none
deriving DecidableEq

/-- The `[project]` section. -/
structure ProjectConfig where
  name : String
  worktree_dir : String
deriving DecidableEq

/-- The `[ports]` section. -/
structure PortsPolicy where
  offset : Int
  max_worktrees : Nat
deriving DecidableEq

/-- Embedding of `interface MonorepoConfig`. -/
structure MonorepoConfig where
  project : ProjectConfig
  ports : PortsPolicy
  services : List ServiceConfig
deriving DecidableEq

/-- JS truthiness of an optional string: `undefined` and `""` are falsy. -/
def truthy (o : Option String) : Bool :=
  match o with
  | none => false
  | some s => !s.isEmpty

/-- JS `x || d` on an optional string (`undefined` and `""` fall back). -/
def jsOrStr (o : Option String) (d : String) : String :=
  match o with
  | none => d
  | some s => if s.isEmpty then d else s

/-- JS `x || d` on an optional number (`undefined` and `0` fall back). -/
def jsOrInt (o : Option Int) (d : Int) : Int :=
  match o with
  | none => d
  | some r => if r = 0 then d else r

/-! The environment-variable reference resolver of `generateCompose`
(`src/compose.ts`): a global regex replace whose pattern is an opening
brace, a word group, a dot, a word group, the literal `.host`, and a
closing brace.  A JS `\w+` group followed by a non-word literal consumes
exactly the maximal word-character run, so the regex engine's behaviour
is a left-to-right scan attempting a maximal-munch match at each
position. -/

/-- The JS `\w` character class: `[A-Za-z0-9_]`. -/
def isWordChar (c : Char) : Bool :=
  c.isAlpha || c.isDigit || c == '_'

/-- Maximal word-character run at the head of the input: what a greedy
`\w+` group consumes when the following pattern character is not a word
character. -/
def spanWord : List Char → List Char × List Char
  | [] => ([], [])
  | c :: cs =>
    if isWordChar c then
      let p := spanWord cs
      (c :: p.1, p.2)
    else ([], c :: cs)

/-- Whether the second list starts with the first (JS `startsWith`). -/
def listStartsWith : List Char → List Char → Bool
  | [], _ => true
  | _ :: _, [] => false
  | a :: as, b :: bs => a == b && listStartsWith as bs

/-- The fixed tail of the reference pattern after the second capture
group: a dot, the literal `host`, and the closing brace. -/
def refTail : List Char := ['.', 'h', 'o', 's', 't', '\x7d']

/-- Attempt to match the reference pattern at the head of the input; on
success return the two capture groups and the input after the match:
an opening brace, a nonempty word run, a dot, a nonempty word run, and
the `.host`-plus-closing-brace tail. -/
def matchRef (cs : List Char) : Option (List Char × List Char × List Char) :=
  match cs with
  | [] => none
  | c :: rest =>
    if c == '\x7b' then
      if (spanWord rest).1.isEmpty then none
      else
        match (spanWord rest).2 with
        | [] => none
        | d :: rest2 =>
          if d == '.' then
            if (spanWord rest2).1.isEmpty then none
            else if listStartsWith refTail (spanWord rest2).2 then
              some ((spanWord rest).1, (spanWord rest2).1,
                (spanWord rest2).2.drop 6)
            else none
          else none
    else none

/-- The exact text matched by `matchRef` with capture groups `w1`, `w2`. -/
def refText (w1 w2 : List Char) : List Char :=
  '\x7b' :: (w1 ++ '.' :: (w2 ++ refTail))

/-- One pass of `String.prototype.replace` with the global reference
regex: at each position try to match; on a match emit the callback's
replacement and continue after the matched text, otherwise emit the
character and move one position on.  The fuel argument only bounds the
recursion; it is always at least the input length. -/
def substCoreF (lookupHost : List Char → List Char → Option Int) :
    Nat → List Char → List Char
  | 0, cs => cs
  | _ + 1, [] => []
  | fuel + 1, c :: cs =>
    match matchRef (c :: cs) with
    | some (w1, w2, rest) =>
      (match lookupHost w1 w2 with
       | some hp => (toString hp).data
       | none => refText w1 w2) ++ substCoreF lookupHost fuel rest
    | none => c :: substCoreF lookupHost fuel cs

/-- The whole replace pass over an input. -/
def substCore (lookupHost : List Char → List Char → Option Int)
    (cs : List Char) : List Char :=
  substCoreF lookupHost cs.length cs

/-- The replace callback of `generateCompose`:
`config.services.find(s => s.name === svcName)` followed by
`targetSvc?.ports[portName]`, composed with `calculateHostPort`;
`none` means the callback returns the matched text unchanged. -/
def svcPortLookup (services : List ServiceConfig) (slot offset : Int)
    (svcName portName : List Char) : Option Int :=
  match services.find? (fun s => s.name == String.mk svcName) with
  | none => none
  | some svc =>
    match svc.ports.lookup (String.mk portName) with
    | none => none
    | some basePort => some (calculateHostPort basePort slot offset)

/-- Resolution of one environment-variable value (the `resolved` string
in `generateCompose`). -/
def resolveEnvValue (services : List ServiceConfig) (slot offset : Int)
    (value : String) : String :=
  String.mk (substCore (svcPortLookup services slot offset) value.data)

/-! The generated Docker Compose document (`generateCompose` output). -/

/-- The `build` block of a generated service. -/
structure ComposeBuild where
  context : String
  dockerfile : String
deriving DecidableEq

/-- The `healthcheck` block of a generated service. -/
structure ComposeHealthcheck where
  test : List String
  interval : String
  retries : Int
  start_period : String
deriving DecidableEq

/-- One generated service entry.  Fields the source sets conditionally
are `Option`; `none` models the key being absent from the JS object. -/
structure ComposeService where
  container_name : String
  image : Option String
  build : Option ComposeBuild
  command : Option String
  ports : Option (List String)
  environment : Option (List (String × String))
  volumes : Option (List String)
  healthcheck : Option ComposeHealthcheck
  depends_on : Option (List (String × String))
  networks : List String
deriving DecidableEq

/-- The top-level generated document.  `volumes` lists the top-level
named-volume declarations in insertion order (an empty list models the
key being omitted). -/
structure ComposeFile where
  version : String
  services : List (String × ComposeService)
  networks : List (String × String)
  volumes : List String
deriving DecidableEq

/-- Volume-name qualification in `generateCompose`: the bare catalog name
for the main environment, `wt-<worktreeName>-<volumeName>` otherwise. -/
def qualifiedVolumeName (isMain : Bool) (worktreeName volumeName : String) :
    String :=
  if isMain then volumeName else "wt-" ++ worktreeName ++ "-" ++ volumeName

/-- Effect of `volumes[qualifiedName] = \x7b\x7d` on a JS object: a fresh key is
appended, an existing key is left where it is. -/
def insertVolumeName (acc : List String) (v : String) : List String :=
  if acc.contains v then acc else acc ++ [v]

/-- The per-service construction in the `generateCompose` loop; it reads
the accumulator for neither field, so it is factored out of the fold. -/
def mkComposeService (pfx networkName : String) (isMain : Bool)
    (worktreeName : String) (slot offset : Int)
    (services : List ServiceConfig) (service : ServiceConfig) :
    ComposeService :=
  { container_name := pfx ++ "-" ++ service.name
    image := if truthy service.image then service.image else none
    build :=
      if truthy service.image then none
      else if truthy service.path then
        some { context := "./" ++ service.path.getD ""
               dockerfile := jsOrStr service.dockerfile "Dockerfile" }
      else none
    command := if truthy service.command then service.command else none
    ports :=
      if service.ports.isEmpty then none
      else some (service.ports.map (fun p =>
        toString (calculateHostPort p.2 slot offset) ++ ":" ++ toString p.2))
    environment :=
      match service.env with
      | none => none
      | some entries =>
        some (entries.map (fun p =>
          (p.1, resolveEnvValue services slot offset p.2)))
    volumes :=
      let svcVolumes :=
        (match service.volumes with
         | none => []
         | some vs => vs.map (fun p => "./" ++ p.1 ++ ":" ++ p.2)) ++
        (match service.named_volumes with
         | none => []
         | some nvs => nvs.map (fun p =>
            qualifiedVolumeName isMain worktreeName p.1 ++ ":" ++ p.2))
      if svcVolumes.isEmpty then none else some svcVolumes
    healthcheck :=
      match service.healthcheck with
      | none => none
      | some hc =>
        match truthy hc.path, service.ports.lookup "main" with
        | true, some mainPort =>
          some { test := ["CMD", "curl", "-f",
                   "http://localhost:" ++ toString mainPort ++ hc.path.getD ""]
                 interval := jsOrStr hc.interval "10s"
                 retries := jsOrInt hc.retries 5
                 start_period := jsOrStr hc.start_period "30s" }
        | _, _ =>
          if truthy hc.test then
            some { test := ["CMD-SHELL", hc.test.getD ""]
                   interval := jsOrStr hc.interval "10s"
                   retries := jsOrInt hc.retries 5
                   start_period := jsOrStr hc.start_period "30s" }
          else none
    depends_on :=
      match service.depends_on with
      | none => none
      | some deps => some (deps.map (fun p => (p.1, p.2)))
    networks := [networkName] }

/-- Body of the `for (const service of config.services)` loop: append the
generated service and register its named volumes. -/
def composeStep (pfx networkName : String) (isMain : Bool)
    (worktreeName : String) (slot offset : Int)
    (services : List ServiceConfig)
    (acc : List (String × ComposeService) × List String)
    (service : ServiceConfig) :
    List (String × ComposeService) × List String :=
  (acc.1 ++ [(service.name,
      mkComposeService pfx networkName isMain worktreeName slot offset
        services service)],
   match service.named_volumes with
   | none => acc.2
   | some nvs => nvs.foldl
      (fun vols p =>
        insertVolumeName vols (qualifiedVolumeName isMain worktreeName p.1))
      acc.2)

/-- Argument object of `generateCompose`. -/
structure GenerateComposeOptions where
  worktreeName : String
  slot : Int
  config : MonorepoConfig

/-- Embedding of `generateCompose(options)` from `src/compose.ts`. -/
def generateCompose (options : GenerateComposeOptions) : ComposeFile :=
  let config := options.config
  let slot := options.slot
  let worktreeName := options.worktreeName
  let offset := config.ports.offset
  let isMain := slot == 0
  let pfx := if isMain then config.project.name else "wt-" ++ worktreeName
  let networkName := pfx
  let result := config.services.foldl
    (composeStep pfx networkName isMain worktreeName slot offset
      config.services)
    ([], [])
  { version := "3.8"
    services := result.1
    networks := [(networkName, "bridge")]
    volumes := result.2 }

/-! `createWorktree` and `cleanupAll` from `src/operations.ts`.  External
collaborators (filesystem, git, docker) are abstracted into explicit
parameters; the slots file is the threaded `SlotMap`. -/

/-- Outcomes of the external steps of `createWorktree`: whether the
target worktree path already exists on disk (`existsSync(worktreePath)`)
and whether the git worktree creation succeeds (its failure is the
caught exception of the source). -/
structure CreateExt where
  pathExists : Bool
  gitCreateOk : Bool
deriving DecidableEq

/-- Slot-registry behaviour and boolean result of `createWorktree`.
Console output, the best-effort `.env.local` copy, compose-file
generation and post-create hooks are omitted: their failures are caught
by the source and affect neither the registry nor the returned value. -/
def createWorktree (slots : SlotMap) (name : String) (max : Nat)
    (force : Bool) (ext : CreateExt) : Bool × SlotMap :=
  match assignSlot slots name max with
  | (Except.error _, slots1) => (false, slots1)
  | (Except.ok _, slots1) =>
    if ext.pathExists && !force then
      (false, releaseSlot slots1 name)
    else if ext.gitCreateOk then
      (true, slots1)
    else
      (false, releaseSlot slots1 name)

/-- Normalization `path.replace(/\\/g, '/').toLowerCase()` as used by `cleanupAll`. -/
def normalizePath (p : String) : String :=
  String.mk (p.data.map (fun c => if c == '\\' then '/' else c.toLower))

/-- Splitting `worktreePath.split(/[/\\]/)`. -/
def splitPath : List Char → List (List Char)
  | [] => [[]]
  | c :: rest =>
    match splitPath rest with
    | [] => [[]]
    | seg :: segs =>
      if c == '/' || c == '\\' then [] :: seg :: segs
      else (c :: seg) :: segs

/-- Embedding of `getWorktreeName` from `src/config.ts`: the last segment after
splitting the path on slashes and backslashes. -/
def getWorktreeName (worktreePath : String) : String :=
  String.mk (((splitPath worktreePath.data).getLast?).getD [])

/-- JS `s.startsWith(pre)`. -/
def strStartsWith (s pre : String) : Bool :=
  listStartsWith pre.data s.data

/-- Body of the `cleanupAll` loop: skip the main checkout, and for every
entry under the worktrees directory call `removeWorktree` (the call is
recorded in the second component; the source discards its boolean result)
and increment the counter. -/
def cleanupStep (projectRoot worktreesDir : String)
    (acc : Nat × List String) (wtPath : String) : Nat × List String :=
  if normalizePath wtPath == normalizePath projectRoot then acc
  else if strStartsWith (normalizePath wtPath) (normalizePath worktreesDir) then
    (acc.1 + 1, acc.2 ++ [getWorktreeName wtPath])
  else acc

/-- Embedding of `cleanupAll` from `src/operations.ts`: the reported `removed` count
and the sequence of names passed to `removeWorktree`.  `removeResult`
gives each removal's boolean outcome; the source ignores it, which the
definition makes explicit by not consulting it. -/
def cleanupAll (projectRoot worktreesDir : String) (wtPaths : List String)
    (_removeResult : String → Bool) : Nat × List String :=
  wtPaths.foldl (cleanupStep projectRoot worktreesDir) (0, [])

/-- Names of the worktrees `cleanupAll` attempts to remove: every listed
path other than the project root that lies under the worktrees
directory. -/
def attemptedNames (projectRoot worktreesDir : String)
    (wtPaths : List String) : List String :=
  (wtPaths.filter (fun p =>
      !(normalizePath p == normalizePath projectRoot) &&
      strStartsWith (normalizePath p) (normalizePath worktreesDir))).map
    getWorktreeName

/-- Modelled from the spec: the count C7 says `cleanupAll` reports — the
number of attempted removals whose `removeWorktree` call succeeded. -/
def successfulRemovals (names : List String)
    (removeResult : String → Bool) : Nat :=
  (names.filter removeResult).length

/-! Decompositions of environment-variable values into literal text and
reference tokens, used to state the substitution claims. -/

/-- A segment of an environment-variable value. -/
inductive EnvSegment where
  | plain (s : String)
  | ref (svcName portName : String)
deriving DecidableEq

/-- The source text of a segment. -/
def renderSegment : EnvSegment → String
  | .plain s => s
  | .ref a b => String.mk (refText a.data b.data)

/-- The source text of a value decomposed into segments. -/
def renderSegments : List EnvSegment → String
  | [] => ""
  | seg :: rest => renderSegment seg ++ renderSegments rest

/-- What the substitution produces for one segment: literal text is
copied; a reference is replaced by the decimal host port when the
referenced service and port exist, and kept verbatim otherwise. -/
def substSegment (services : List ServiceConfig) (slot offset : Int) :
    EnvSegment → String
  | .plain s => s
  | .ref a b =>
    match svcPortLookup services slot offset a.data b.data with
    | some hp => toString hp
    | none => String.mk (refText a.data b.data)

/-- The substituted value of a decomposed value. -/
def substSegments (services : List ServiceConfig) (slot offset : Int) :
    List EnvSegment → String
  | [] => ""
  | seg :: rest =>
    substSegment services slot offset seg ++
      substSegments services slot offset rest

/-- A word string: nonempty and all word characters — exactly what a
`(\w+)` group captures. -/
def isWordString (s : String) : Bool :=
  !s.data.isEmpty && s.data.all isWordChar

/-- Well-formed segment: literal text free of opening braces, reference
names of the shape the pattern recognizes. -/
def segWF : EnvSegment → Bool
  | .plain s => s.data.all (fun c => !(c == '\x7b'))
  | .ref a b => isWordString a && isWordString b

end WorktreeCli

namespace WorktreeCli

/-! Lemmas about the slot scan. -/

theorem firstFree_rangeFrom_some (used : List Nat) :
    ∀ (n i s : Nat), firstFree used (rangeFrom i n) = some s →
      i ≤ s ∧ s < i + n ∧ used.contains s = false ∧
      ∀ j, i ≤ j → j < s → used.contains j = true := by
  intro n
  induction n with
  | zero => intro i s h; simp [rangeFrom, firstFree] at h
  | succ n ih =>
    intro i s h
    rw [rangeFrom] at h
    rw [firstFree] at h
    cases hc : used.contains i with
    | true =>
      rw [hc] at h
      simp only [if_true] at h
      obtain ⟨h1, h2, h3, h4⟩ := ih (i + 1) s h
      refine ⟨by omega, by omega, h3, ?_⟩
      intro j hj1 hj2
      rcases Nat.eq_or_lt_of_le hj1 with hj | hj
      · rw [← hj]; exact hc
      · exact h4 j hj hj2
    | false =>
      rw [hc] at h
      simp only [if_false, Bool.false_eq_true] at h
      have hs : s = i := by
        have := h
        injection this with h'
        omega
      subst hs
      exact ⟨Nat.le_refl _, by omega, hc, fun j hj1 hj2 => by omega⟩

theorem firstFree_rangeFrom_isSome (used : List Nat) :
    ∀ (n i : Nat), (∃ j, i ≤ j ∧ j < i + n ∧ used.contains j = false) →
      (firstFree used (rangeFrom i n)).isSome = true := by
  intro n
  induction n with
  | zero => intro i ⟨j, h1, h2, _⟩; omega
  | succ n ih =>
    intro i ⟨j, h1, h2, h3⟩
    rw [rangeFrom, firstFree]
    cases hc : used.contains i with
    | true =>
      rw [if_pos rfl]
      apply ih (i + 1)
      rcases Nat.eq_or_lt_of_le h1 with hj | hj
      · exfalso; rw [hj] at hc; rw [hc] at h3; simp at h3
      · exact ⟨j, by omega, by omega, h3⟩
    | false => rw [if_neg (by simp)]; rfl

theorem firstFree_rangeFrom_none (used : List Nat) :
    ∀ (n i : Nat), (∀ j, i ≤ j → j < i + n → used.contains j = true) →
      firstFree used (rangeFrom i n) = none := by
  intro n
  induction n with
  | zero => intro i _; rfl
  | succ n ih =>
    intro i h
    rw [rangeFrom, firstFree]
    have hc : used.contains i = true := h i (Nat.le_refl _) (by omega)
    rw [hc]
    simp only [if_true]
    exact ih (i + 1) (fun j hj1 hj2 => h j (by omega) (by omega))

theorem lookup_append_of_none {α β : Type} [BEq α] (a : α)
    (l₁ l₂ : List (α × β)) (h : l₁.lookup a = none) :
    (l₁ ++ l₂).lookup a = l₂.lookup a := by
  induction l₁ with
  | nil => simp
  | cons p t ih =>
    obtain ⟨k, v⟩ := p
    simp only [List.cons_append, List.lookup] at h ⊢
    cases hk : a == k with
    | true =>
      simp only [hk] at h
      exact Option.noConfusion h
    | false =>
      simp only [hk] at h ⊢
      exact ih h

theorem lookup_filter_ne_self (slots : SlotMap) (name : String) :
    (releaseSlot slots name).lookup name = none := by
  induction slots with
  | nil => rfl
  | cons p t ih =>
    obtain ⟨k, v⟩ := p
    rw [releaseSlot] at ih ⊢
    simp only [List.filter_cons]
    cases hk : k == name with
    | true => simpa using ih
    | false =>
      have hk2 : (name == k) = false := by
        rw [beq_eq_false_iff_ne] at hk ⊢
        exact fun e => hk e.symm
      simp only [hk, Bool.not_false, if_true, List.lookup, hk2]
      exact ih

/-- C1: for a name not in the registry, `assignSlot` scans `1..max` in
ascending order, returns the first slot not used by any entry, the
returned slot is in `[1, max]` and distinct from every assigned slot,
and the persisted mapping is the old entries plus the new pair. -/
theorem claim1_assign_first_unused (slots : SlotMap) (name : String) (max : Nat)
    (hfresh : slots.lookup name = none)
    (hfree : ∃ j, 1 ≤ j ∧ j ≤ max ∧ (slotValues slots).contains j = false) :
    ∃ s, assignSlot slots name max = (Except.ok s, slots ++ [(name, s)]) ∧
      1 ≤ s ∧ s ≤ max ∧
      (slotValues slots).contains s = false ∧
      (∀ j, 1 ≤ j → j < s → (slotValues slots).contains j = true) := by
  obtain ⟨j, hj1, hj2, hj3⟩ := hfree
  have hsome := firstFree_rangeFrom_isSome (slotValues slots) max 1
    ⟨j, hj1, by omega, hj3⟩
  obtain ⟨i, hi⟩ := Option.isSome_iff_exists.mp hsome
  obtain ⟨h1, h2, h3, h4⟩ := firstFree_rangeFrom_some (slotValues slots) max 1 i hi
  refine ⟨i, ?_, h1, by omega, h3, h4⟩
  rw [assignSlot, hfresh, hi]

/-- Witness for C1 on a concrete registry: `{a ↦ 1, b ↦ 3}` with
`max = 5`; the fresh name receives slot 2, the lowest unused. -/
theorem claim1_witness :
    (([("a", 1), ("b", 3)] : SlotMap).lookup "c" = none) ∧
    (∃ j, 1 ≤ j ∧ j ≤ 5 ∧
      (slotValues [("a", 1), ("b", 3)]).contains j = false) ∧
    (∃ s, assignSlot [("a", 1), ("b", 3)] "c" 5 =
        (Except.ok s, [("a", 1), ("b", 3)] ++ [("c", s)]) ∧
      1 ≤ s ∧ s ≤ 5 ∧
      (slotValues [("a", 1), ("b", 3)]).contains s = false ∧
      (∀ j, 1 ≤ j → j < s →
        (slotValues [("a", 1), ("b", 3)]).contains j = true)) :=
  ⟨by decide, ⟨2, by decide⟩,
    claim1_assign_first_unused [("a", 1), ("b", 3)] "c" 5 (by decide)
      ⟨2, by decide⟩⟩

/-- C2: `calculateHostPort` is `basePort + slot * offset`; slot 0 gives the
base port back; for fixed base and positive offset it is strictly
increasing in the slot; and `calculateHostPort 3000 2 1000 = 5000`. -/
theorem claim2_calculateHostPort (basePort slot offset : Int) :
    calculateHostPort basePort slot offset = basePort + slot * offset ∧
    calculateHostPort basePort 0 offset = basePort ∧
    (∀ s₁ s₂ : Int, 0 < offset → s₁ < s₂ →
      calculateHostPort basePort s₁ offset <
        calculateHostPort basePort s₂ offset) ∧
    calculateHostPort 3000 2 1000 = 5000 := by
  refine ⟨rfl, by simp [calculateHostPort], ?_, by decide⟩
  intro s₁ s₂ ho hs
  have : s₁ * offset < s₂ * offset := by
    exact mul_lt_mul_of_pos_right hs ho
  simpa [calculateHostPort] using Int.add_lt_add_left this basePort

/-- Witness for C2: strict monotonicity instantiated at offset 1000 and
slots 1 < 2. -/
theorem claim2_witness :
    (0 : Int) < 1000 ∧ (1 : Int) < 2 ∧
    calculateHostPort 3000 1 1000 < calculateHostPort 3000 2 1000 :=
  ⟨by decide, by decide,
    (claim2_calculateHostPort 3000 0 1000).2.2.1 1 2 (by decide) (by decide)⟩

/-- C5: `assignSlot` is idempotent — a second call with the same name, on
the registry persisted by the first, returns the same slot and leaves the
registry unchanged. -/
theorem claim5_assign_idempotent (slots : SlotMap) (name : String) (max : Nat)
    (s : Nat) (slots' : SlotMap)
    (h : assignSlot slots name max = (Except.ok s, slots')) :
    assignSlot slots' name max = (Except.ok s, slots') := by
  rw [assignSlot] at h
  cases hl : slots.lookup name with
  | some t =>
    simp only [hl] at h
    injection h with h1 h2
    injection h1 with h1
    subst h1
    subst h2
    simp only [assignSlot, hl]
  | none =>
    simp only [hl] at h
    cases hf : firstFree (slotValues slots) (rangeFrom 1 max) with
    | some i =>
      simp only [hf] at h
      injection h with h1 h2
      injection h1 with h1
      subst h1
      subst h2
      have hlook : (slots ++ [(name, i)]).lookup name = some i := by
        rw [lookup_append_of_none name slots _ hl]
        simp [List.lookup]
      simp only [assignSlot, hlook]
    | none =>
      simp only [hf] at h
      injection h with h1 h2
      injection h1

/-- Witness for C5: assigning `a` to an empty registry gives slot 1, and
the repeated call returns slot 1 on the unchanged registry. -/
theorem claim5_witness :
    assignSlot [] "a" 5 = (Except.ok 1, [("a", 1)]) ∧
    assignSlot [("a", 1)] "a" 5 = (Except.ok 1, [("a", 1)]) :=
  ⟨rfl, claim5_assign_idempotent [] "a" 5 1 [("a", 1)] rfl⟩

/-- C6: on a registry in which every slot `1..max` is taken, `assignSlot`
for a fresh name fails with the slots-exhausted error and leaves the
registry unchanged. -/
theorem claim6_slots_exhausted (slots : SlotMap) (name : String) (max : Nat)
    (hfresh : slots.lookup name = none)
    (hfull : ∀ j, 1 ≤ j → j ≤ max → (slotValues slots).contains j = true) :
    assignSlot slots name max = (Except.error (slotsExhaustedMsg max), slots) := by
  have hnone := firstFree_rangeFrom_none (slotValues slots) max 1
    (fun j hj1 hj2 => hfull j hj1 (by omega))
  rw [assignSlot, hfresh, hnone]

/-- Witness for C6: a 1-slot registry holding `{a ↦ 1}` rejects a fresh
name `b` and is left unchanged. -/
theorem claim6_witness :
    (([("a", 1)] : SlotMap).lookup "b" = none) ∧
    assignSlot [("a", 1)] "b" 1 =
      (Except.error (slotsExhaustedMsg 1), [("a", 1)]) :=
  ⟨by decide,
    claim6_slots_exhausted [("a", 1)] "b" 1 (by decide)
      (by
        intro j h1 h2
        have hj : j = 1 := by omega
        subst hj
        decide)⟩

/-! Lemmas about the reference scanner. -/

theorem spanWord_append (w r : List Char)
    (hw : ∀ c ∈ w, isWordChar c = true)
    (hr : ∀ d, r.head? = some d → isWordChar d = false) :
    spanWord (w ++ r) = (w, r) := by
  induction w with
  | nil =>
    cases r with
    | nil => rfl
    | cons d r2 =>
      have hd := hr d rfl
      simp [spanWord, hd]
  | cons c w2 ih =>
    have hc := hw c (List.mem_cons_self c w2)
    have ih2 := ih (fun x hx => hw x (List.mem_cons_of_mem c hx))
    simp [spanWord, hc, ih2]

theorem spanWord_join (cs : List Char) :
    (spanWord cs).1 ++ (spanWord cs).2 = cs := by
  induction cs with
  | nil => rfl
  | cons c cs2 ih =>
    cases hc : isWordChar c with
    | true => simp [spanWord, hc, ih]
    | false => simp [spanWord, hc]

theorem listStartsWith_append (pat l : List Char) :
    listStartsWith pat (pat ++ l) = true := by
  induction pat with
  | nil => rfl
  | cons a as ih => simp [listStartsWith, ih]

theorem listStartsWith_decompose (pat : List Char) :
    ∀ l : List Char, listStartsWith pat l = true →
      l = pat ++ l.drop pat.length := by
  induction pat with
  | nil => intro l _; simp
  | cons a as ih =>
    intro l h
    cases l with
    | nil => simp [listStartsWith] at h
    | cons b bs =>
      rw [listStartsWith, Bool.and_eq_true] at h
      obtain ⟨h1, h2⟩ := h
      have hab : a = b := eq_of_beq h1
      subst hab
      calc a :: bs = a :: (as ++ bs.drop as.length) := by rw [← ih bs h2]
        _ = (a :: as) ++ (a :: bs).drop ((a :: as).length) := by
            simp [List.drop_succ_cons]

theorem matchRef_not_brace (c : Char) (cs : List Char)
    (h : (c == '\x7b') = false) : matchRef (c :: cs) = none := by
  simp [matchRef, h]

theorem matchRef_refText (w1 w2 rest : List Char)
    (h1e : w1 ≠ []) (h1w : ∀ c ∈ w1, isWordChar c = true)
    (h2e : w2 ≠ []) (h2w : ∀ c ∈ w2, isWordChar c = true) :
    matchRef (refText w1 w2 ++ rest) = some (w1, w2, rest) := by
  have hsp1 : spanWord (w1 ++ '.' :: (w2 ++ (refTail ++ rest))) =
      (w1, '.' :: (w2 ++ (refTail ++ rest))) :=
    spanWord_append w1 _ h1w
      (by intro d hd; injection hd with hd; subst hd; decide)
  have hsp2 : spanWord (w2 ++ (refTail ++ rest)) = (w2, refTail ++ rest) :=
    spanWord_append w2 _ h2w
      (by intro d hd; injection hd with hd; subst hd; decide)
  have hne1 : w1.isEmpty = false := by
    cases w1 with
    | nil => exact absurd rfl h1e
    | cons a as => rfl
  have hne2 : w2.isEmpty = false := by
    cases w2 with
    | nil => exact absurd rfl h2e
    | cons a as => rfl
  have hstart : listStartsWith refTail (refTail ++ rest) = true :=
    listStartsWith_append refTail rest
  have hdrop : (refTail ++ rest).drop 6 = rest := rfl
  have hshape : refText w1 w2 ++ rest =
      '\x7b' :: (w1 ++ '.' :: (w2 ++ (refTail ++ rest))) := by
    simp [refText, List.cons_append, List.append_assoc]
  rw [hshape]
  simp [matchRef, hsp1, hsp2, hne1, hne2, hstart, hdrop]

theorem matchRef_consumed (cs w1 w2 rest : List Char)
    (h : matchRef cs = some (w1, w2, rest)) :
    cs = refText w1 w2 ++ rest := by
  cases cs with
  | nil => simp [matchRef] at h
  | cons c r =>
    rw [matchRef] at h
    cases hc : c == '\x7b' with
    | false => simp [hc] at h
    | true =>
      have hceq : c = '\x7b' := eq_of_beq hc
      subst hceq
      simp only [hc, if_true] at h
      cases hne1 : (spanWord r).1.isEmpty with
      | true => simp [hne1] at h
      | false =>
        simp only [hne1, Bool.false_eq_true, if_false] at h
        cases hsp2shape : (spanWord r).2 with
        | nil => simp [hsp2shape] at h
        | cons d rest2 =>
          simp only [hsp2shape] at h
          cases hd : d == '.' with
          | false => simp [hd] at h
          | true =>
            have hdeq : d = '.' := eq_of_beq hd
            subst hdeq
            simp only [hd, if_true] at h
            cases hne2 : (spanWord rest2).1.isEmpty with
            | true => simp [hne2] at h
            | false =>
              simp only [hne2, Bool.false_eq_true, if_false] at h
              cases hstart : listStartsWith refTail (spanWord rest2).2 with
              | false => simp [hstart] at h
              | true =>
                simp only [hstart, if_true] at h
                injection h with h
                injection h with hw1 h
                injection h with hw2 hrest
                have hjoin1 := spanWord_join r
                have hjoin2 := spanWord_join rest2
                have hdec := listStartsWith_decompose refTail _ hstart
                rw [show refTail.length = 6 from rfl] at hdec
                rw [hrest] at hdec
                rw [hsp2shape, hw1] at hjoin1
                rw [hw2, hdec] at hjoin2
                rw [refText]
                rw [← hjoin1, ← hjoin2]
                simp [List.cons_append, List.append_assoc]

theorem matchRef_length (cs w1 w2 rest : List Char)
    (h : matchRef cs = some (w1, w2, rest)) :
    rest.length < cs.length := by
  have hcs := matchRef_consumed cs w1 w2 rest h
  subst hcs
  simp [refText, refTail]
  omega

/-! Lemmas about the substitution pass. -/

theorem substCoreF_congr (f : List Char → List Char → Option Int) :
    ∀ (n : Nat) (cs : List Char) (fuel1 fuel2 : Nat),
      cs.length ≤ n → cs.length ≤ fuel1 → cs.length ≤ fuel2 →
      substCoreF f fuel1 cs = substCoreF f fuel2 cs := by
  intro n
  induction n with
  | zero =>
    intro cs fuel1 fuel2 hn h1 h2
    have hcs : cs = [] := List.length_eq_zero.mp (Nat.le_zero.mp hn)
    subst hcs
    cases fuel1 <;> cases fuel2 <;> rfl
  | succ n ih =>
    intro cs fuel1 fuel2 hn h1 h2
    cases cs with
    | nil => cases fuel1 <;> cases fuel2 <;> rfl
    | cons c cs2 =>
      cases fuel1 with
      | zero => simp at h1
      | succ f1 =>
        cases fuel2 with
        | zero => simp at h2
        | succ f2 =>
          rw [substCoreF, substCoreF]
          cases hm : matchRef (c :: cs2) with
          | some trip =>
            obtain ⟨w1, w2, rest⟩ := trip
            have hlen := matchRef_length _ _ _ _ hm
            simp only [hm]
            congr 1
            apply ih rest f1 f2
            · simp only [List.length_cons] at hn hlen; omega
            · simp only [List.length_cons] at h1 hlen; omega
            · simp only [List.length_cons] at h2 hlen; omega
          | none =>
            simp only [hm]
            congr 1
            apply ih cs2 f1 f2
            · simp only [List.length_cons] at hn; omega
            · simp only [List.length_cons] at h1; omega
            · simp only [List.length_cons] at h2; omega

theorem substCore_plain (f : List Char → List Char → Option Int)
    (pre rest : List Char)
    (hpre : ∀ c ∈ pre, (c == '\x7b') = false) :
    substCore f (pre ++ rest) = pre ++ substCore f rest := by
  induction pre with
  | nil => simp
  | cons c pre2 ih =>
    have hc := hpre c (List.mem_cons_self c pre2)
    have ih2 := ih (fun x hx => hpre x (List.mem_cons_of_mem c hx))
    have hm := matchRef_not_brace c (pre2 ++ rest) hc
    rw [List.cons_append, substCore, List.length_cons, substCoreF]
    simp only [hm]
    rw [show substCoreF f (pre2 ++ rest).length (pre2 ++ rest) =
          substCore f (pre2 ++ rest) from rfl]
    rw [ih2]
    rfl

theorem substCore_ref (f : List Char → List Char → Option Int)
    (w1 w2 rest : List Char)
    (h1e : w1 ≠ []) (h1w : ∀ c ∈ w1, isWordChar c = true)
    (h2e : w2 ≠ []) (h2w : ∀ c ∈ w2, isWordChar c = true) :
    substCore f (refText w1 w2 ++ rest) =
      (match f w1 w2 with
       | some hp => (toString hp).data
       | none => refText w1 w2) ++ substCore f rest := by
  have hm := matchRef_refText w1 w2 rest h1e h1w h2e h2w
  have hshape : refText w1 w2 ++ rest =
      '\x7b' :: ((w1 ++ '.' :: (w2 ++ refTail)) ++ rest) := by
    simp [refText, List.cons_append]
  simp only [substCore]
  rw [hshape] at hm ⊢
  rw [List.length_cons, substCoreF]
  simp only [hm]
  congr 1
  apply substCoreF_congr f ((w1 ++ '.' :: (w2 ++ refTail)) ++ rest).length
  · simp [List.length_append]; omega
  · simp [List.length_append]; omega
  · exact Nat.le_refl _

theorem substCore_segments (services : List ServiceConfig)
    (slot offset : Int) :
    ∀ segs : List EnvSegment, (∀ seg ∈ segs, segWF seg = true) →
      substCore (svcPortLookup services slot offset)
          (renderSegments segs).data =
        (substSegments services slot offset segs).data := by
  intro segs
  induction segs with
  | nil => intro _; rfl
  | cons seg rest ih =>
    intro hwf
    have hseg := hwf seg (List.mem_cons_self seg rest)
    have ihr := ih (fun x hx => hwf x (List.mem_cons_of_mem seg hx))
    rw [renderSegments, substSegments]
    rw [show (renderSegment seg ++ renderSegments rest).data =
          (renderSegment seg).data ++ (renderSegments rest).data from rfl]
    rw [show (substSegment services slot offset seg ++
            substSegments services slot offset rest).data =
          (substSegment services slot offset seg).data ++
            (substSegments services slot offset rest).data from rfl]
    cases seg with
    | plain s =>
      rw [segWF] at hseg
      have hp : ∀ c ∈ s.data, (c == '\x7b') = false := by
        intro c hcmem
        have := List.all_eq_true.mp hseg c hcmem
        simpa using this
      rw [show (renderSegment (EnvSegment.plain s)).data = s.data from rfl]
      rw [substCore_plain _ _ _ hp, ihr]
      rfl
    | ref a b =>
      rw [segWF, Bool.and_eq_true] at hseg
      obtain ⟨ha, hb⟩ := hseg
      rw [isWordString, Bool.and_eq_true] at ha hb
      obtain ⟨ha1, ha2⟩ := ha
      obtain ⟨hb1, hb2⟩ := hb
      have hae : a.data ≠ [] := by
        intro hnil; rw [hnil] at ha1; simp at ha1
      have hbe : b.data ≠ [] := by
        intro hnil; rw [hnil] at hb1; simp at hb1
      have haw := List.all_eq_true.mp ha2
      have hbw := List.all_eq_true.mp hb2
      rw [show (renderSegment (EnvSegment.ref a b)).data =
            refText a.data b.data from rfl]
      rw [substCore_ref _ _ _ _ hae haw hbe hbw, ihr]
      cases hl : svcPortLookup services slot offset a.data b.data with
      | some hp => simp [substSegment, hl]
      | none => simp [substSegment, hl]

/-- Shared bridge from the resolver to segment decompositions: on a value
rendered from well-formed segments, the replace pass substitutes exactly
segment-wise. -/
theorem resolveEnvValue_segments (services : List ServiceConfig)
    (slot offset : Int) (segs : List EnvSegment)
    (hwf : ∀ seg ∈ segs, segWF seg = true) :
    resolveEnvValue services slot offset (renderSegments segs) =
      substSegments services slot offset segs := by
  rw [resolveEnvValue, substCore_segments services slot offset segs hwf]

/-! Lemmas about the generateCompose fold. -/

theorem composeStep_foldl_fst (pfx networkName : String) (isMain : Bool)
    (worktreeName : String) (slot offset : Int)
    (services : List ServiceConfig) :
    ∀ (l : List ServiceConfig)
      (acc : List (String × ComposeService) × List String),
      (l.foldl (composeStep pfx networkName isMain worktreeName slot offset
        services) acc).1 =
        acc.1 ++ l.map (fun s => (s.name,
          mkComposeService pfx networkName isMain worktreeName slot offset
            services s)) := by
  intro l
  induction l with
  | nil => intro acc; simp
  | cons s l2 ih =>
    intro acc
    rw [List.foldl_cons, ih]
    simp [composeStep]

/-- The qualified top-level volume names one service contributes. -/
def serviceVolumeNames (isMain : Bool) (worktreeName : String)
    (service : ServiceConfig) : List String :=
  (service.named_volumes.getD []).map
    (fun p => qualifiedVolumeName isMain worktreeName p.1)

theorem composeStep_snd (pfx networkName : String) (isMain : Bool)
    (worktreeName : String) (slot offset : Int)
    (services : List ServiceConfig)
    (acc : List (String × ComposeService) × List String)
    (service : ServiceConfig) :
    (composeStep pfx networkName isMain worktreeName slot offset services
        acc service).2 =
      (serviceVolumeNames isMain worktreeName service).foldl
        insertVolumeName acc.2 := by
  cases hnv : service.named_volumes with
  | none => simp [composeStep, serviceVolumeNames, hnv]
  | some nvs => simp [composeStep, serviceVolumeNames, hnv, List.foldl_map]

theorem mem_insertVolumeName (acc : List String) (v x : String) :
    x ∈ insertVolumeName acc v ↔ x ∈ acc ∨ x = v := by
  rw [insertVolumeName]
  cases hc : acc.contains v with
  | true =>
    have hv : v ∈ acc := List.elem_iff.mp hc
    simp only [if_true]
    constructor
    · exact Or.inl
    · rintro (h | h)
      · exact h
      · rw [h]; exact hv
  | false => simp

theorem nodup_insertVolumeName (acc : List String) (v : String)
    (h : acc.Nodup) : (insertVolumeName acc v).Nodup := by
  rw [insertVolumeName]
  cases hc : acc.contains v with
  | true => simpa using h
  | false =>
    have hv : ¬ v ∈ acc := by
      intro hvmem
      have h2 : acc.elem v = true := List.elem_iff.mpr hvmem
      have h3 : acc.elem v = false := hc
      rw [h2] at h3
      exact Bool.noConfusion h3
    simp [List.nodup_append, h, hv]

theorem mem_foldl_insertVolumeName :
    ∀ (names : List String) (acc : List String) (x : String),
      x ∈ names.foldl insertVolumeName acc ↔ x ∈ acc ∨ x ∈ names := by
  intro names
  induction names with
  | nil => intro acc x; simp
  | cons n ns ih =>
    intro acc x
    rw [List.foldl_cons, ih, mem_insertVolumeName]
    simp [List.mem_cons]
    tauto

theorem nodup_foldl_insertVolumeName :
    ∀ (names : List String) (acc : List String), acc.Nodup →
      (names.foldl insertVolumeName acc).Nodup := by
  intro names
  induction names with
  | nil => intro acc h; simpa using h
  | cons n ns ih =>
    intro acc h
    rw [List.foldl_cons]
    exact ih _ (nodup_insertVolumeName acc n h)

theorem composeStep_foldl_snd (pfx networkName : String) (isMain : Bool)
    (worktreeName : String) (slot offset : Int)
    (services : List ServiceConfig) :
    ∀ (l : List ServiceConfig)
      (acc : List (String × ComposeService) × List String),
      (l.foldl (composeStep pfx networkName isMain worktreeName slot offset
        services) acc).2 =
        (l.flatMap (serviceVolumeNames isMain worktreeName)).foldl
          insertVolumeName acc.2 := by
  intro l
  induction l with
  | nil => intro acc; simp
  | cons s l2 ih =>
    intro acc
    rw [List.foldl_cons, ih, List.flatMap_cons, List.foldl_append,
      composeStep_snd]

/-! Claims about createWorktree, cleanupAll and generateCompose. -/

/-- C3 counterexample: on the AlreadyExists failure path the slot entry
is removed even when the name already held a slot before the call — the
registry `{a ↦ 1}` does NOT keep its entry (the claim says the
pre-existing entry must be preserved). -/
theorem claim3_counterexample :
    getSlot [("a", 1)] "a" = some 1 ∧
    (assignSlot [("a", 1)] "a" 5).2 = [("a", 1)] ∧
    createWorktree [("a", 1)] "a" 5 false ⟨true, true⟩ = (false, []) ∧
    getSlot (createWorktree [("a", 1)] "a" 5 false ⟨true, true⟩).2 "a" =
      none :=
  ⟨rfl, rfl, rfl, rfl⟩

/-- C3 amended: when `createWorktree` fails with AlreadyExists (target
path exists, no force), it always releases the name's slot entry —
whether the slot was newly assigned in this call or pre-existing. -/
theorem claim3_release_unconditional (slots : SlotMap) (name : String)
    (max : Nat) (ext : CreateExt) (s : Nat)
    (hassign : (assignSlot slots name max).1 = Except.ok s)
    (hpath : ext.pathExists = true) :
    createWorktree slots name max false ext =
      (false, releaseSlot (assignSlot slots name max).2 name) ∧
    getSlot (createWorktree slots name max false ext).2 name = none := by
  cases hres : assignSlot slots name max with
  | mk r m =>
    rw [hres] at hassign
    have hr : r = Except.ok s := hassign
    subst hr
    have h1 : createWorktree slots name max false ext =
        (false, releaseSlot m name) := by
      simp [createWorktree, hres, hpath]
    refine ⟨?_, ?_⟩
    · rw [h1]
    · rw [h1]
      exact lookup_filter_ne_self m name

/-- Witness for the amended C3 on a registry where the name already held
a slot before the call. -/
theorem claim3_witness :
    (assignSlot [("a", 1)] "a" 5).1 = Except.ok 1 ∧
    (⟨true, true⟩ : CreateExt).pathExists = true ∧
    (createWorktree [("a", 1)] "a" 5 false ⟨true, true⟩ =
        (false, releaseSlot (assignSlot [("a", 1)] "a" 5).2 "a") ∧
      getSlot (createWorktree [("a", 1)] "a" 5 false ⟨true, true⟩).2 "a" =
        none) :=
  ⟨rfl, rfl,
    claim3_release_unconditional [("a", 1)] "a" 5 ⟨true, true⟩ 1 rfl rfl⟩

theorem cleanupStep_foldl (projectRoot worktreesDir : String) :
    ∀ (wtPaths : List String) (acc : Nat × List String),
      wtPaths.foldl (cleanupStep projectRoot worktreesDir) acc =
        (acc.1 + (attemptedNames projectRoot worktreesDir wtPaths).length,
         acc.2 ++ attemptedNames projectRoot worktreesDir wtPaths) := by
  intro wtPaths
  induction wtPaths with
  | nil => intro acc; simp [attemptedNames]
  | cons p l ih =>
    intro acc
    rw [List.foldl_cons, ih]
    simp only [cleanupStep, attemptedNames, List.filter_cons]
    cases h1 : normalizePath p == normalizePath projectRoot with
    | true => simp [h1]
    | false =>
      cases h2 : strStartsWith (normalizePath p) (normalizePath worktreesDir)
        with
      | true =>
        simp only [h1, h2, Bool.not_false, Bool.true_and, if_true,
          Bool.false_eq_true, if_false, List.map_cons, List.length_cons]
        refine Prod.ext ?_ ?_
        · simp; omega
        · simp
      | false => simp [h1, h2]

/-- C7 corrected: `cleanupAll` attempts `removeWorktree` on every listed
worktree other than the project root that lies under the worktrees
directory — independently of every removal's outcome — and its reported
count equals the number of attempted removals, failed ones included. -/
theorem claim7_counts_attempts (projectRoot worktreesDir : String)
    (wtPaths : List String) (removeResult : String → Bool) :
    (cleanupAll projectRoot worktreesDir wtPaths removeResult).2 =
      attemptedNames projectRoot worktreesDir wtPaths ∧
    (cleanupAll projectRoot worktreesDir wtPaths removeResult).1 =
      (attemptedNames projectRoot worktreesDir wtPaths).length := by
  rw [cleanupAll, cleanupStep_foldl]
  simp

/-- C7 counterexample: one worktree whose removal fails — `cleanupAll`
still reports 1, while the number of successful removals is 0. -/
theorem claim7_counterexample :
    (cleanupAll "/r" "/r/.worktrees" ["/r", "/r/.worktrees/a"]
        (fun _ => false)).1 = 1 ∧
    (cleanupAll "/r" "/r/.worktrees" ["/r", "/r/.worktrees/a"]
        (fun _ => false)).2 = ["a"] ∧
    successfulRemovals
        (cleanupAll "/r" "/r/.worktrees" ["/r", "/r/.worktrees/a"]
          (fun _ => false)).2 (fun _ => false) = 0 ∧
    (cleanupAll "/r" "/r/.worktrees" ["/r", "/r/.worktrees/a"]
        (fun _ => false)).1 ≠
      successfulRemovals
        (cleanupAll "/r" "/r/.worktrees" ["/r", "/r/.worktrees/a"]
          (fun _ => false)).2 (fun _ => false) := by
  refine ⟨rfl, rfl, rfl, by decide⟩

/-- C8: named-volume qualification — slot 0 keeps the bare catalog name,
a non-main environment foo gets the env-prefixed qualified name — and the
generated top-level volume list declares each distinct qualified name
exactly once (it has no duplicates and contains exactly the names
referenced by the services). -/
theorem claim8_volume_qualification (worktreeName : String) (slot : Int)
    (config : MonorepoConfig) (volumeName : String) :
    qualifiedVolumeName true worktreeName volumeName = volumeName ∧
    qualifiedVolumeName false worktreeName volumeName =
      "wt-" ++ worktreeName ++ "-" ++ volumeName ∧
    (generateCompose ⟨worktreeName, slot, config⟩).volumes.Nodup ∧
    ∀ v, v ∈ (generateCompose ⟨worktreeName, slot, config⟩).volumes ↔
      ∃ s ∈ config.services, ∃ nv ∈ s.named_volumes.getD [],
        v = qualifiedVolumeName (slot == 0) worktreeName nv.1 := by
  have hvols : (generateCompose ⟨worktreeName, slot, config⟩).volumes =
      (config.services.flatMap
        (serviceVolumeNames (slot == 0) worktreeName)).foldl
        insertVolumeName [] := by
    simp only [generateCompose]
    rw [composeStep_foldl_snd]
  refine ⟨rfl, rfl, ?_, ?_⟩
  · rw [hvols]
    exact nodup_foldl_insertVolumeName _ [] List.nodup_nil
  · intro v
    rw [hvols, mem_foldl_insertVolumeName]
    simp only [List.not_mem_nil, false_or, List.mem_flatMap,
      serviceVolumeNames, List.mem_map]
    constructor
    · rintro ⟨s, hs, nv, hnv, hq⟩
      exact ⟨s, hs, nv, hnv, hq.symm⟩
    · rintro ⟨s, hs, nv, hnv, hq⟩
      exact ⟨s, hs, nv, hnv, hq.symm⟩

/-- C4: an env value that decomposes into brace-free literal text and
reference tokens is emitted by `generateCompose` with every occurrence of
every reference substituted in the single pass; a reference whose service
and port exist in the catalog becomes the decimal string of
`calculateHostPort` of the referenced base port at the environment's slot
and the configured offset. -/
theorem claim4_reference_substitution (worktreeName : String) (slot : Int)
    (config : MonorepoConfig) (service : ServiceConfig)
    (entries : List (String × String)) (key : String)
    (segs : List EnvSegment)
    (hs : service ∈ config.services)
    (henv : service.env = some entries)
    (hkey : (key, renderSegments segs) ∈ entries)
    (hwf : ∀ seg ∈ segs, segWF seg = true) :
    (∃ svc : ComposeService,
      (service.name, svc) ∈
        (generateCompose ⟨worktreeName, slot, config⟩).services ∧
      ∃ outEntries, svc.environment = some outEntries ∧
        (key, substSegments config.services slot config.ports.offset segs)
          ∈ outEntries) ∧
    ∀ a b : String, EnvSegment.ref a b ∈ segs →
      ∀ t, config.services.find? (fun x => x.name == a) = some t →
      ∀ basePort, t.ports.lookup b = some basePort →
      substSegment config.services slot config.ports.offset
          (EnvSegment.ref a b) =
        toString (calculateHostPort basePort slot config.ports.offset) := by
  constructor
  · have hserv : (generateCompose ⟨worktreeName, slot, config⟩).services =
        config.services.map (fun s => (s.name,
          mkComposeService
            (if slot == 0 then config.project.name
             else "wt-" ++ worktreeName)
            (if slot == 0 then config.project.name
             else "wt-" ++ worktreeName)
            (slot == 0) worktreeName slot config.ports.offset
            config.services s)) := by
      simp only [generateCompose]
      rw [composeStep_foldl_fst]
      simp
    refine ⟨mkComposeService
        (if slot == 0 then config.project.name else "wt-" ++ worktreeName)
        (if slot == 0 then config.project.name else "wt-" ++ worktreeName)
        (slot == 0) worktreeName slot config.ports.offset
        config.services service, ?_, ?_⟩
    · rw [hserv]
      exact List.mem_map_of_mem _ hs
    · refine ⟨entries.map (fun q =>
        (q.1, resolveEnvValue config.services slot config.ports.offset q.2)),
        ?_, ?_⟩
      · simp [mkComposeService, henv]
      · refine List.mem_map.mpr ⟨(key, renderSegments segs), hkey, ?_⟩
        show (key, resolveEnvValue config.services slot config.ports.offset
            (renderSegments segs)) =
          (key, substSegments config.services slot config.ports.offset segs)
        rw [resolveEnvValue_segments config.services slot config.ports.offset
          segs hwf]
  · intro a b _hab t ht basePort hbp
    have ht2 : config.services.find?
        (fun s => s.name == String.mk a.data) = some t := ht
    have hbp2 : t.ports.lookup (String.mk b.data) = some basePort := hbp
    simp only [substSegment, svcPortLookup, ht2, hbp2]

/-- Witness for C4: catalog with `api` (port `main = 3000`) and `web`
whose `BACKEND` value holds two references to `api.main`; at slot 2 with
offset 1000 both become 5000. -/
theorem claim4_witness :
    (({ name := "web",
        env := some [("BACKEND",
          "\x7bapi.main.host\x7d:\x7bapi.main.host\x7d")] } : ServiceConfig) ∈
      [({ name := "api", ports := [("main", 3000)] } : ServiceConfig),
       { name := "web",
         env := some [("BACKEND",
           "\x7bapi.main.host\x7d:\x7bapi.main.host\x7d")] }]) ∧
    (({ name := "web",
        env := some [("BACKEND",
          "\x7bapi.main.host\x7d:\x7bapi.main.host\x7d")] } :
        ServiceConfig).env =
      some [("BACKEND", "\x7bapi.main.host\x7d:\x7bapi.main.host\x7d")]) ∧
    (("BACKEND", renderSegments [EnvSegment.ref "api" "main",
        EnvSegment.plain ":", EnvSegment.ref "api" "main"]) ∈
      [(("BACKEND" : String),
        ("\x7bapi.main.host\x7d:\x7bapi.main.host\x7d" : String))]) ∧
    (∀ seg ∈ [EnvSegment.ref "api" "main", EnvSegment.plain ":",
        EnvSegment.ref "api" "main"], segWF seg = true) ∧
    ((∃ svc : ComposeService,
      ("web", svc) ∈
        (generateCompose ⟨"wt1", 2,
          { project := { name := "proj", worktree_dir := ".worktrees" },
            ports := { offset := 1000, max_worktrees := 5 },
            services :=
              [{ name := "api", ports := [("main", 3000)] },
               { name := "web",
                 env := some [("BACKEND",
                   "\x7bapi.main.host\x7d:\x7bapi.main.host\x7d")] }] }⟩).services ∧
      ∃ outEntries, svc.environment = some outEntries ∧
        ("BACKEND", substSegments
            [{ name := "api", ports := [("main", 3000)] },
             { name := "web",
               env := some [("BACKEND",
                 "\x7bapi.main.host\x7d:\x7bapi.main.host\x7d")] }] 2 1000
            [EnvSegment.ref "api" "main", EnvSegment.plain ":",
              EnvSegment.ref "api" "main"]) ∈ outEntries) ∧
    ∀ a b : String, EnvSegment.ref a b ∈
        [EnvSegment.ref "api" "main", EnvSegment.plain ":",
          EnvSegment.ref "api" "main"] →
      ∀ t, ([({ name := "api", ports := [("main", 3000)] } : ServiceConfig),
          { name := "web",
            env := some [("BACKEND",
              "\x7bapi.main.host\x7d:\x7bapi.main.host\x7d")] }].find?
          (fun x => x.name == a)) = some t →
      ∀ basePort, t.ports.lookup b = some basePort →
      substSegment
          [{ name := "api", ports := [("main", 3000)] },
           { name := "web",
             env := some [("BACKEND",
               "\x7bapi.main.host\x7d:\x7bapi.main.host\x7d")] }] 2 1000
          (EnvSegment.ref a b) =
        toString (calculateHostPort basePort 2 1000)) :=
  ⟨by decide, rfl, by decide, by decide,
    claim4_reference_substitution "wt1" 2
      { project := { name := "proj", worktree_dir := ".worktrees" },
        ports := { offset := 1000, max_worktrees := 5 },
        services :=
          [{ name := "api", ports := [("main", 3000)] },
           { name := "web",
             env := some [("BACKEND",
               "\x7bapi.main.host\x7d:\x7bapi.main.host\x7d")] }] }
      { name := "web",
        env := some [("BACKEND",
          "\x7bapi.main.host\x7d:\x7bapi.main.host\x7d")] }
      [("BACKEND", "\x7bapi.main.host\x7d:\x7bapi.main.host\x7d")]
      "BACKEND"
      [EnvSegment.ref "api" "main", EnvSegment.plain ":",
        EnvSegment.ref "api" "main"]
      (by decide) rfl (by decide) (by decide)⟩

/-- C9: a reference naming a service absent from the catalog, or a port
the referenced service does not declare, is left verbatim in the output
(not dropped, not replaced), and the substitution still succeeds on the
whole value. -/
theorem claim9_unresolvable_verbatim (services : List ServiceConfig)
    (slot offset : Int) (segs : List EnvSegment) (a b : String)
    (hwf : ∀ seg ∈ segs, segWF seg = true)
    (_hseg : EnvSegment.ref a b ∈ segs)
    (hnone : ∀ t, services.find? (fun x => x.name == a) = some t →
      t.ports.lookup b = none) :
    substSegment services slot offset (EnvSegment.ref a b) =
      renderSegment (EnvSegment.ref a b) ∧
    resolveEnvValue services slot offset (renderSegments segs) =
      substSegments services slot offset segs := by
  constructor
  · have hlk : svcPortLookup services slot offset a.data b.data = none := by
      rw [svcPortLookup]
      cases hf : services.find? (fun s => s.name == String.mk a.data) with
      | none => simp
      | some t =>
        have ht : services.find? (fun x => x.name == a) = some t := hf
        simp [hnone t ht]
    simp [substSegment, renderSegment, hlk]
  · exact resolveEnvValue_segments services slot offset segs hwf

/-- Witness for C9: the reference to the nonexistent service `ghost` is
kept verbatim. -/
theorem claim9_witness :
    (∀ seg ∈ [EnvSegment.plain "URL=", EnvSegment.ref "ghost" "main"],
      segWF seg = true) ∧
    (EnvSegment.ref "ghost" "main" ∈
      [EnvSegment.plain "URL=", EnvSegment.ref "ghost" "main"]) ∧
    (∀ t, ([({ name := "api", ports := [("main", 3000)] } :
        ServiceConfig)].find? (fun x => x.name == "ghost")) = some t →
      t.ports.lookup "main" = none) ∧
    (substSegment [{ name := "api", ports := [("main", 3000)] }] 2 1000
        (EnvSegment.ref "ghost" "main") =
      renderSegment (EnvSegment.ref "ghost" "main") ∧
    resolveEnvValue [{ name := "api", ports := [("main", 3000)] }] 2 1000
        (renderSegments [EnvSegment.plain "URL=",
          EnvSegment.ref "ghost" "main"]) =
      substSegments [{ name := "api", ports := [("main", 3000)] }] 2 1000
        [EnvSegment.plain "URL=", EnvSegment.ref "ghost" "main"]) :=
  ⟨by decide, by decide,
    (by
      intro t ht
      rw [show ([({ name := "api", ports := [("main", 3000)] } :
          ServiceConfig)].find? (fun x => x.name == "ghost")) = none
        from rfl] at ht
      exact Option.noConfusion ht),
    claim9_unresolvable_verbatim
      [{ name := "api", ports := [("main", 3000)] }] 2 1000
      [EnvSegment.plain "URL=", EnvSegment.ref "ghost" "main"]
      "ghost" "main" (by decide) (by decide)
      (by
        intro t ht
        rw [show ([({ name := "api", ports := [("main", 3000)] } :
            ServiceConfig)].find? (fun x => x.name == "ghost")) = none
          from rfl] at ht
        exact Option.noConfusion ht)⟩

theorem word_not_brace (c : Char) (h : isWordChar c = true) :
    (c == '\x7b') = false := by
  cases hc : c == '\x7b' with
  | false => rfl
  | true =>
    have hceq : c = '\x7b' := eq_of_beq hc
    subst hceq
    exact absurd h (by decide)

theorem matchRef_hyphen (x R : List Char)
    (hx : ∀ c ∈ x, isWordChar c = true) :
    matchRef ('\x7b' :: (x ++ '-' :: R)) = none := by
  have hsp : spanWord (x ++ '-' :: R) = (x, '-' :: R) :=
    spanWord_append x _ hx
      (by intro d hd; injection hd with hd; subst hd; decide)
  simp [matchRef, hsp]

theorem substCore_verbatim (f : List Char → List Char → Option Int)
    (cs : List Char) (h : ∀ c ∈ cs, (c == '\x7b') = false) :
    substCore f cs = cs := by
  have h2 := substCore_plain f cs [] h
  rw [show substCore f ([] : List Char) = [] from rfl,
    List.append_nil] at h2
  exact h2

/-- C10: the resolver only recognizes word-character service and port
names — a reference whose service name contains a hyphen (such as
`core-api`) is always left verbatim, even when that service and port
exist in the catalog. -/
theorem claim10_nonword_service_name (services : List ServiceConfig)
    (slot offset : Int) (x y p : String)
    (hx : x.data.all isWordChar = true)
    (hy : y.data.all isWordChar = true)
    (hp : p.data.all isWordChar = true)
    (_hex : ∃ t ∈ services, t.name = x ++ "-" ++ y ∧
      (t.ports.lookup p).isSome = true) :
    resolveEnvValue services slot offset
        ("\x7b" ++ x ++ "-" ++ y ++ "." ++ p ++ ".host\x7d") =
      "\x7b" ++ x ++ "-" ++ y ++ "." ++ p ++ ".host\x7d" := by
  have hxw := List.all_eq_true.mp hx
  have hyw := List.all_eq_true.mp hy
  have hpw := List.all_eq_true.mp hp
  have e1 : ∀ s t : String, (s ++ t).data = s.data ++ t.data := fun s t => rfl
  have hdata : ("\x7b" ++ x ++ "-" ++ y ++ "." ++ p ++ ".host\x7d").data =
      '\x7b' :: (x.data ++ '-' ::
        (y.data ++ '.' :: (p.data ++ ['.', 'h', 'o', 's', 't', '\x7d']))) := by
    rw [e1, e1, e1, e1, e1, e1]
    rw [show ("\x7b" : String).data = ['\x7b'] from rfl,
      show ("-" : String).data = ['-'] from rfl,
      show ("." : String).data = ['.'] from rfl,
      show (".host\x7d" : String).data = ['.', 'h', 'o', 's', 't', '\x7d']
        from rfl]
    simp [List.append_assoc]
  have hnb : ∀ c ∈ (x.data ++ '-' ::
      (y.data ++ '.' :: (p.data ++ ['.', 'h', 'o', 's', 't', '\x7d']))),
      (c == '\x7b') = false := by
    intro c hcmem
    simp only [List.mem_append, List.mem_cons, List.not_mem_nil,
      or_false] at hcmem
    rcases hcmem with h | h | h | h | h | h | h | h | h | h | h
    · exact word_not_brace c (hxw c h)
    · subst h; decide
    · exact word_not_brace c (hyw c h)
    · subst h; decide
    · exact word_not_brace c (hpw c h)
    · subst h; decide
    · subst h; decide
    · subst h; decide
    · subst h; decide
    · subst h; decide
    · subst h; decide
  have hmr := matchRef_hyphen x.data
    (y.data ++ '.' :: (p.data ++ ['.', 'h', 'o', 's', 't', '\x7d'])) hxw
  have hverb : substCore (svcPortLookup services slot offset)
      ('\x7b' :: (x.data ++ '-' :: (y.data ++ '.' ::
        (p.data ++ ['.', 'h', 'o', 's', 't', '\x7d'])))) =
      '\x7b' :: (x.data ++ '-' :: (y.data ++ '.' ::
        (p.data ++ ['.', 'h', 'o', 's', 't', '\x7d']))) := by
    rw [substCore, List.length_cons, substCoreF]
    simp only [hmr]
    rw [show substCoreF (svcPortLookup services slot offset)
        (x.data ++ '-' :: (y.data ++ '.' ::
          (p.data ++ ['.', 'h', 'o', 's', 't', '\x7d']))).length
        (x.data ++ '-' :: (y.data ++ '.' ::
          (p.data ++ ['.', 'h', 'o', 's', 't', '\x7d']))) =
      substCore (svcPortLookup services slot offset)
        (x.data ++ '-' :: (y.data ++ '.' ::
          (p.data ++ ['.', 'h', 'o', 's', 't', '\x7d']))) from rfl]
    rw [substCore_verbatim _ _ hnb]
  rw [resolveEnvValue, hdata, hverb, ← hdata]

/-- Witness for C10: the catalog contains `core-api` with port `main`,
yet the reference to it is left verbatim. -/
theorem claim10_witness :
    ("core" : String).data.all isWordChar = true ∧
    ("api" : String).data.all isWordChar = true ∧
    ("main" : String).data.all isWordChar = true ∧
    (∃ t ∈ [({ name := "core-api", ports := [("main", 3000)] } :
        ServiceConfig)],
      t.name = "core" ++ "-" ++ "api" ∧
      (t.ports.lookup "main").isSome = true) ∧
    resolveEnvValue [{ name := "core-api", ports := [("main", 3000)] }]
        2 1000
        ("\x7b" ++ "core" ++ "-" ++ "api" ++ "." ++ "main" ++ ".host\x7d") =
      "\x7b" ++ "core" ++ "-" ++ "api" ++ "." ++ "main" ++ ".host\x7d" :=
  ⟨by decide, by decide, by decide,
    ⟨{ name := "core-api", ports := [("main", 3000)] }, by decide,
      by decide, by decide⟩,
    claim10_nonword_service_name
      [{ name := "core-api", ports := [("main", 3000)] }] 2 1000
      "core" "api" "main" (by decide) (by decide) (by decide)
      ⟨{ name := "core-api", ports := [("main", 3000)] }, by decide,
        by decide, by decide⟩⟩

end WorktreeCli
